import Mathlib

/-!
Shallow embedding of the scraping/extraction engine of
`src/crowdwisdom/tools/scrape_mcp_tool.py` (the CORE of the repository per
the spec), and proofs of the frozen claims about it.

Modelling conventions:
* Python strings are `String` / `List Char`; Python `float` values are
  modelled as exact rationals `ℚ` (the claims speak about decimal values
  such as 0.30, below the granularity of binary-float rounding).
* Python `dict[str, float]` is an insertion-ordered association list
  `List (String × ℚ)` with Python assignment semantics (`setKey`) and
  `dict.update` semantics (`updateMap`).
* `None`-returning fallible code becomes `Option`; the single `raise` in
  the engine becomes `Except.error`.
* The regular expressions of the source are embedded as executable search
  functions over `List Char`, faithful to Python `re` semantics (leftmost
  match, word boundaries, the `re.I` flag) on the character classes the
  source uses.  Character classes are ASCII-arithmetic on code points,
  matching Python's behaviour on all inputs the claims touch.
* The browser environment (navigation successes, page texts, watchdog
  firings, unexpected task exceptions) is an explicit oracle `Env`; the
  engine is a pure function of it that additionally returns the trace of
  navigation events, so that "no page is opened" is a statement about the
  trace.
-/

namespace CW

/-! ### Character classes (ASCII, via code points) -/

def isDig (c : Char) : Bool := 48 ≤ c.toNat && c.toNat ≤ 57

def isWs (c : Char) : Bool :=
  c.toNat = 32 || c.toNat = 9 || c.toNat = 10 || c.toNat = 13 || c.toNat = 11 || c.toNat = 12

/-- Python `\w` (word character) restricted to ASCII: letters, digits, `_`. -/
def isWordChar (c : Char) : Bool :=
  (65 ≤ c.toNat && c.toNat ≤ 90) || (97 ≤ c.toNat && c.toNat ≤ 122) ||
  (48 ≤ c.toNat && c.toNat ≤ 57) || c.toNat = 95

/-- ASCII lower-casing, as done by `re.I` matching and `str.lower`. -/
def lowerC (c : Char) : Char :=
  if 65 ≤ c.toNat && c.toNat ≤ 90 then Char.ofNat (c.toNat + 32) else c

/-- ASCII upper-casing (for `str.title`). -/
def upperC (c : Char) : Char :=
  if 97 ≤ c.toNat && c.toNat ≤ 122 then Char.ofNat (c.toNat - 32) else c

def isAlphaC (c : Char) : Bool :=
  (65 ≤ c.toNat && c.toNat ≤ 90) || (97 ≤ c.toNat && c.toNat ≤ 122)

/-! ### Small string utilities -/

/-- `str.strip()` (ASCII whitespace). -/
def stripWs (s : List Char) : List Char :=
  ((s.dropWhile isWs).reverse.dropWhile isWs).reverse

/-- The words of `str.split()` (split on whitespace runs, no empties). -/
def splitWsGo : List Char → List Char → List (List Char)
  | [], cur => if cur = [] then [] else [cur.reverse]
  | c :: cs, cur =>
    if isWs c then
      (if cur = [] then splitWsGo cs [] else cur.reverse :: splitWsGo cs [])
    else splitWsGo cs (c :: cur)

def joinSp : List (List Char) → List Char
  | [] => []
  | [w] => w
  | w :: ws => w ++ ' ' :: joinSp ws

/-- `" ".join(text.split())`: collapse internal whitespace to single spaces. -/
def normWs (s : List Char) : List Char := joinSp (splitWsGo s [])

/-! ### `float(...)` on the strings the engine can feed it

After the source's own filtering, every string reaching `float()` is made of
digits, dots, and (rejected) leftover symbol characters; Python accepts it
iff, after stripping whitespace, it is digits with at most one dot and at
least one digit.  The value is the decimal value. -/

def natOfDigs (ds : List Char) : Nat := ds.foldl (fun n c => 10 * n + (c.toNat - 48)) 0

def pyFloat (s0 : List Char) : Option ℚ :=
  let s := stripWs s0
  if s ≠ [] ∧ (∀ c ∈ s, isDig c = true ∨ c = '.') ∧
      (s.filter (fun c => c == '.')).length ≤ 1 ∧ (∃ c ∈ s, isDig c = true) then
    let ip := s.takeWhile (fun c => isDig c)
    let fp := (s.dropWhile (fun c => isDig c)).drop 1
    some ((natOfDigs ip : ℚ) + (natOfDigs fp : ℚ) / (10 : ℚ) ^ fp.length)
  else none

/-! ### `parse_price_token_to_float` -/

def lastIs (t : List Char) (c : Char) : Bool := t.getLast? = some c

/-- Embedding of `parse_price_token_to_float` (scrape_mcp_tool.py lines 21-44). -/
def parse_price_token_to_float (tok : List Char) : Option ℚ :=
  if tok = [] then none
  else
    let t := stripWs tok
    -- cents variants 30c / 30¢ (`t.endswith("c") or t.endswith("¢")`)
    if lastIs t 'c' || lastIs t '¢' then
      -- `float(re.sub(r"[^\d\.]", "", t)) / 100.0`
      (pyFloat (t.filter (fun c => isDig c || c == '.'))).map (fun v => v / 100)
    -- percent 30%
    else if lastIs t '%' then
      (pyFloat t.dropLast).map (fun v => v / 100)
    -- dollars or plain number: $0.30, 0.30, 30 (assume cents if > 1)
    else
      (pyFloat (t.filter (fun c => !(c == '$')))).map
        (fun v => if v ≤ 1 then v else v / 100)

/-! ### The regular expressions of the source

`PRICE_RE_CENTS  = (\d+(?:\.\d+)?)c|\b(\d+(?:\.\d+)?)¢`   (re.I)
`PRICE_RE_DOLLAR = \$?\s*(\d+(?:\.\d+)?)`
`PERCENT_RE      = \b(\d+(?:\.\d+)?)%\b`                   (re.I)
and the label regexes
`\byes\b[^0-9$%c¢]*([$\d][\d\.\$%c¢]*)` / `\bno\b...`      (re.I).

Each is embedded as a match-at-position function returning
(group 0, rest of the string after the match); `searchG` scans positions
left to right (Python `re.search`), `finditer` collects the non-overlapping
matches (`re.finditer`).  Greedy sub-matches in these patterns never need
backtracking (shrinking a `\d+`/`\s*`/gap run re-exposes a character that
cannot start the next pattern element), so the deterministic functions below
are faithful. -/

/-- `\d+(?:\.\d+)?` at the head of `s`: (matched text, rest). -/
def matchNum (s : List Char) : Option (List Char × List Char) :=
  let ds := s.takeWhile isDig
  if ds = [] then none
  else
    match s.dropWhile isDig with
    | '.' :: r2 =>
      let fs := r2.takeWhile isDig
      if fs = [] then some (ds, s.dropWhile isDig)
      else some (ds ++ '.' :: fs, r2.dropWhile isDig)
    | r => some (ds, r)

def prevNonWord : Option Char → Bool
  | none => true
  | some p => !isWordChar p

/-- `PERCENT_RE` at one position (needs a word char right after the `%`). -/
def percentMatchAt (prev : Option Char) (s : List Char) : Option (List Char × List Char) :=
  if prevNonWord prev then
    match matchNum s with
    | some (num, '%' :: rest) =>
      match rest with
      | c :: _ => if isWordChar c then some (num ++ ['%'], rest) else none
      | [] => none
    | _ => none
  else none

/-- `PRICE_RE_CENTS` at one position (`c`/`C` branch has no boundary; the
`¢` branch requires a word boundary before the digits). -/
def centsMatchAt (prev : Option Char) (s : List Char) : Option (List Char × List Char) :=
  match matchNum s with
  | some (num, c :: rest) =>
    if c = 'c' || c = 'C' then some (num ++ [c], rest)
    else if c = '¢' && prevNonWord prev then some (num ++ ['¢'], rest)
    else none
  | _ => none

/-- `PRICE_RE_DOLLAR` at one position; group 0 includes the `$` and spaces. -/
def dollarMatchAt (_ : Option Char) (s : List Char) : Option (List Char × List Char) :=
  let (dol, s1) := match s with
    | '$' :: r => (['$'], r)
    | _ => (([] : List Char), s)
  let sp := s1.takeWhile isWs
  match matchNum (s1.dropWhile isWs) with
  | some (num, rest) => some (dol ++ sp ++ num, rest)
  | none => none

/-- `re.search`: try the pattern at each position, left to right. -/
def searchG (mAt : Option Char → List Char → Option (List Char × List Char)) :
    Option Char → List Char → Option (List Char × List Char)
  | prev, [] => mAt prev []
  | prev, c :: cs =>
    match mAt prev (c :: cs) with
    | some r => some r
    | none => searchG mAt (some c) cs

/-- `re.finditer` (fuelled; every match consumes at least one character). -/
def finditerGo (mAt : Option Char → List Char → Option (List Char × List Char)) :
    Nat → Option Char → List Char → List (List Char)
  | 0, _, _ => []
  | fuel + 1, prev, s =>
    match searchG mAt prev s with
    | none => []
    | some (g0, rest) =>
      g0 :: finditerGo mAt fuel (match g0.reverse with | c :: _ => some c | [] => prev) rest

def finditer (mAt : Option Char → List Char → Option (List Char × List Char))
    (s : List Char) : List (List Char) :=
  finditerGo mAt (s.length + 1) none s

/-! #### The label-proximity regexes -/

/-- Gap class `[^0-9$%c¢]` under re.I: these are the excluded characters. -/
def isGapStop (c : Char) : Bool :=
  isDig c || c == '$' || c == '%' || c == 'c' || c == 'C' || c == '¢'

/-- Token class `[\d\.\$%c¢]` under re.I. -/
def isTokChar (c : Char) : Bool :=
  isDig c || c == '.' || c == '$' || c == '%' || c == 'c' || c == 'C' || c == '¢'

/-- Case-insensitive literal-word match; returns the rest on success. -/
def dropLabelCI : List Char → List Char → Option (List Char)
  | [], s => some s
  | _ :: _, [] => none
  | l :: ls, c :: cs => if lowerC c = l then dropLabelCI ls cs else none

/-- After the label: `[^0-9$%c¢]*([$\d][\d\.\$%c¢]*)` — skip the gap, the
token must start with `$` or a digit, then extends greedily. -/
def gapToken (s : List Char) : Option (List Char) :=
  match s.dropWhile (fun c => !isGapStop c) with
  | c :: cs => if isDig c || c == '$' then some (c :: cs.takeWhile isTokChar) else none
  | [] => none

/-- `\b<label>\b[^0-9$%c¢]*([$\d][\d\.\$%c¢]*)` at one position. -/
def labelMatchAt (label : List Char) (prev : Option Char) (s : List Char) :
    Option (List Char) :=
  if prevNonWord prev then
    match dropLabelCI label s with
    | none => none
    | some rest =>
      match rest with
      | c :: _ => if isWordChar c then none else gapToken rest
      | [] => gapToken rest
  else none

/-- `re.search` for the label regex; returns group 1 (the price token). -/
def searchLabelTok (label : List Char) : Option Char → List Char → Option (List Char)
  | _, [] => none
  | prev, c :: cs =>
    match labelMatchAt label prev (c :: cs) with
    | some tok => some tok
    | none => searchLabelTok label (some c) cs

/-! ### Outcome maps (Python dicts keyed by outcome label) -/

/-- Insertion-ordered map, Python `dict[str, float]`. -/
abbrev OutcomeMap := List (String × ℚ)

def getKey (m : OutcomeMap) (k : String) : Option ℚ :=
  match m.find? (fun p => p.1 == k) with
  | some p => some p.2
  | none => none

def hasKey (m : OutcomeMap) (k : String) : Bool := (getKey m k).isSome

/-- Python `m[k] = v`: overwrite in place, else append. -/
def setKey : OutcomeMap → String → ℚ → OutcomeMap
  | [], k, v => [(k, v)]
  | p :: ps, k, v => if p.1 = k then (k, v) :: ps else p :: setKey ps k v

/-- Python `m.update(n)`. -/
def updateMap (m n : OutcomeMap) : OutcomeMap :=
  n.foldl (fun acc p => setKey acc p.1 p.2) m

/-! ### `parse_yes_no_from_text_block` -/

def yesL : List Char := ['y', 'e', 's']
def noL : List Char := ['n', 'o']

/-- `if m: v = parse_price_token_to_float(tok); if v is not None: out[k] = v`. -/
def setIf (out : OutcomeMap) (k : String) (tok : Option (List Char)) : OutcomeMap :=
  match tok with
  | some t =>
    match parse_price_token_to_float t with
    | some v => setKey out k v
    | none => out
  | none => out

/-- `PERCENT_RE.search(t) or PRICE_RE_CENTS.search(t) or PRICE_RE_DOLLAR.search(t)`,
then `.group(0)`. -/
def genericFirst (t : List Char) : Option (List Char) :=
  (searchG percentMatchAt none t <|> searchG centsMatchAt none t <|>
    searchG dollarMatchAt none t).map Prod.fst

/-- `list(PERCENT_RE.finditer(t)) or list(...) or list(...)`, then `[1].group(0)`
when at least two matches exist. -/
def genericSecond (t : List Char) : Option (List Char) :=
  let ms :=
    let p := finditer percentMatchAt t
    if p ≠ [] then p
    else
      let c := finditer centsMatchAt t
      if c ≠ [] then c else finditer dollarMatchAt t
  ms.get? 1

/-- Embedding of `parse_yes_no_from_text_block` (lines 46-87). -/
def parse_yes_no_from_text_block (text : String) : OutcomeMap :=
  if text.data = [] then []
  else
    let t := normWs text.data
    let out := setIf [] "Yes" (searchLabelTok yesL none t)
    let out := setIf out "No" (searchLabelTok noL none t)
    let out := if hasKey out "Yes" then out else setIf out "Yes" (genericFirst t)
    let out := if hasKey out "No" then out else setIf out "No" (genericSecond t)
    out

/-! ### `slug_to_title` and URL helpers -/

/-- `slug.rsplit("/", 1)[-1]`. -/
def lastSlashSegment (s : List Char) : List Char :=
  ((s.reverse.takeWhile (fun c => !(c == '/')))).reverse

/-- Python `str.title()` (ASCII): uppercase a letter after a non-letter,
lowercase a letter after a letter. -/
def pyTitleGo : Bool → List Char → List Char
  | _, [] => []
  | prevAlpha, c :: cs =>
    if isAlphaC c then (if prevAlpha then lowerC c else upperC c) :: pyTitleGo true cs
    else c :: pyTitleGo false cs

/-- Embedding of `slug_to_title` (lines 89-92). -/
def slug_to_title (slug : String) : String :=
  let s := lastSlashSegment slug.data
  let s := s.map (fun c => if c = '-' ∨ c = '_' then ' ' else c)
  let s := stripWs s
  if s = [] then slug else ⟨pyTitleGo false s⟩

/-- Substring test, Python `needle in hay`. -/
def containsSub (needle : List Char) : List Char → Bool
  | [] => needle.isEmpty
  | c :: rest => needle.isPrefixOf (c :: rest) || containsSub needle rest

/-- Embedding of `get_absolute_href` (lines 94-103). -/
def get_absolute_href (site href : String) : String :=
  if href = "" then ""
  else if "http".data.isPrefixOf href.data then href
  else if site = "polymarket" then "https://polymarket.com" ++ href
  else if site = "kalshi" then "https://kalshi.com" ++ href
  else href

/-- The site-classification branch of `scrape_mcp_site` (lines 206-218):
`"polymarket" in url` / `"kalshi" in url`, else `raise ValueError`. -/
def siteOf (url : String) : Option String :=
  if containsSub "polymarket".data url.data then some "polymarket"
  else if containsSub "kalshi".data url.data then some "kalshi"
  else none

/-! ### The browser environment oracle and the event trace

The engine's interactions with the headless browser are modelled by an
oracle `Env`.  Observable navigation actions are recorded as events:
`navListing` (successful `page.goto` on the listing URL), `openDetail u`
(`browser.new_page()` for market `u`), `navDetail u k` (attempt `k` of
`market_page.goto`/`reload` for market `u`). -/

inductive Event where
  | navListing : Event
  | openDetail : String → Event
  | navDetail : String → Nat → Event
deriving DecidableEq

/-- What the detail page of one market yields to `extract_yes_no_on_detail`.
`none` at the outer level of `panel`/`blocks` models the corresponding
`query_selector` call raising `PlaywrightError`; `panel = some none` models
"no such container"; an inner `none` in `blocks` models `inner_text`
raising; `body = none` models the body-text read raising. -/
structure DetailPage where
  panel : Option (Option String)
  blocks : Option (List (Option String))
  body : Option String

/-- Oracle for one run: listing-navigation success, discovered anchors
(an anchor whose `href` attribute is absent carries `none`; a failed
`inner_text` read is the empty string), per-market per-attempt detail
navigation success, detail-page contents, watchdog firings, unexpected
in-task exceptions, and where cancellation cuts a timed-out task's trace. -/
structure Card where
  href : Option String
  text : String

structure Env where
  listingNavOk : Bool
  anchors : List Card
  navOkAt : String → Nat → Bool
  detail : String → DetailPage
  watchdogFires : String → Bool
  taskFails : String → Bool
  cutoff : String → Nat

/-! ### `extract_yes_no_on_detail` -/

/-- Step 3 of the extraction cascade (lines 146-152): whole body text. -/
def extractStep3 (pg : DetailPage) : OutcomeMap :=
  match pg.body with
  | some t => parse_yes_no_from_text_block t
  | none => []

/-- The `got.update(res)` loop over outcome-like blocks (lines 133-140);
blocks whose `inner_text` raises are skipped. -/
def extractBlocksFold (bs : List (Option String)) : OutcomeMap :=
  bs.foldl
    (fun acc ob =>
      match ob with
      | some bt => updateMap acc (parse_yes_no_from_text_block bt)
      | none => acc) []

/-- Step 2 of the cascade (lines 128-144): per-outcome blocks, merged. -/
def extractStep2 (pg : DetailPage) : OutcomeMap :=
  match pg.blocks with
  | some bs =>
    let got := extractBlocksFold bs
    if hasKey got "Yes" || hasKey got "No" then got else extractStep3 pg
  | none => extractStep3 pg

/-- Embedding of `extract_yes_no_on_detail` (lines 113-152): the three-step
extraction cascade, stopping at the first step that yields a label. -/
def extract_yes_no_on_detail (pg : DetailPage) : OutcomeMap :=
  -- 1) a container holding both trade buttons
  match pg.panel with
  | some (some t) =>
    let res := parse_yes_no_from_text_block t
    if hasKey res "Yes" || hasKey res "No" then res else extractStep2 pg
  | _ => extractStep2 pg

/-! ### Discovery (the card loop of `scrape_mcp_site`, lines 227-269) -/

structure Item where
  site : String
  url : String
  title : String
  quick : OutcomeMap
deriving DecidableEq

structure ScrapeResult where
  site : String
  product_name : String
  url : String
  outcomes : OutcomeMap
deriving DecidableEq

/-- First line of the card text whose `strip()` is non-blank (the title
loop over `card_text.splitlines()`). -/
def firstLine (s : List Char) : Option (List Char) :=
  (s.splitOnP (fun c => c == '\n' || c == '\r')).findSome?
    (fun ln => let l := stripWs ln; if l = [] then none else some l)

/-- The MarketReference built from one accepted card: title is the first
non-blank line of the card text, else the slug-derived title; quick
outcomes come from parsing the card text. -/
def mkItem (site : String) (a : Card) (abs_href : String) : Item :=
  { site := site
    url := abs_href
    title := match firstLine a.text.data with
      | some ln => (⟨ln⟩ : String)
      | none => slug_to_title abs_href
    quick := parse_yes_no_from_text_block a.text }

/-- The per-anchor discovery loop: dedup by absolute URL, title from card
text with slug fallback, quick Yes/No from the card text, stop once
`max_items` items are collected (checked after each append, as in the
source). -/
def discoverLoop (site : String) (max_items : Nat) :
    List Card → List String → List Item → List Item
  | [], _, acc => acc.reverse
  | a :: rest, seen, acc =>
    let abs_href := get_absolute_href site (a.href.getD "")
    if abs_href = "" ∨ abs_href ∈ seen then discoverLoop site max_items rest seen acc
    else if max_items ≤ (mkItem site a abs_href :: acc).length then
      (mkItem site a abs_href :: acc).reverse
    else discoverLoop site max_items rest (abs_href :: seen) (mkItem site a abs_href :: acc)

/-- Discovery incl. the synthetic single-market fallback (lines 267-269):
if the listing yielded nothing, treat the given URL as a single market. -/
def discoverItems (env : Env) (url site : String) (max_items : Nat) : List Item :=
  let items := discoverLoop site max_items env.anchors [] []
  if items = [] then [⟨site, url, slug_to_title url, []⟩] else items

/-! ### `scrape_one`, the watchdog, and the full run -/

def RETRIES : Nat := 2

/-- The detail navigation retry loop (lines 297-333): attempts
`attempt, attempt+1, ...` while fuel lasts, stopping at the first success;
returns the attempt events and whether navigation succeeded. -/
def navLoop (env : Env) (u : String) (attempt : Nat) : Nat → List Event × Bool
  | 0 => ([], false)
  | fuel + 1 =>
    if env.navOkAt u attempt then ([Event.navDetail u attempt], true)
    else
      let r := navLoop env u (attempt + 1) fuel
      (Event.navDetail u attempt :: r.1, r.2)

/-- Embedding of `scrape_one` (lines 271-376).  Returns the produced
result (`none` models the broad `except Exception: return None`, modelled
as failing at `browser.new_page()`, the first point after the
short-circuit where the source can raise) and the navigation events. -/
def scrape_one (env : Env) (it : Item) : Option ScrapeResult × List Event :=
  -- If grid already has both Yes and No, short-circuit
  if hasKey it.quick "Yes" && hasKey it.quick "No" then
    (some { site := it.site
            product_name := if it.title = "" then "N/A" else it.title
            url := it.url
            -- {"Yes": quick["Yes"], "No": quick["No"]}; the `getD 0`
            -- defaults are unreachable because both keys are present
            outcomes := [("Yes", (getKey it.quick "Yes").getD 0),
                         ("No", (getKey it.quick "No").getD 0)] }, [])
  else if env.taskFails it.url then (none, [])
  else
    let nav := navLoop env it.url 0 (RETRIES + 1)
    -- start from quick values, merge detail results, detail wins
    let detail := if nav.2 then extract_yes_no_on_detail (env.detail it.url) else []
    (some { site := it.site
            product_name := if it.title = "" then "N/A" else it.title
            url := it.url
            outcomes := updateMap it.quick detail },
     Event.openDetail it.url :: nav.1)

/-- Embedding of `timed` (lines 378-392): the watchdog.  On timeout the
task's trace is cut at an oracle-chosen suspension point and the fallback
result is built from the item's pre-timeout quick outcomes
(`item.get("title", "N/A")` returns the stored title, and
`item.get("quick_yes_no", {}) or {}` is the stored quick map). -/
def timed (env : Env) (it : Item) : Option ScrapeResult × List Event :=
  if env.watchdogFires it.url then
    (some { site := it.site, product_name := it.title, url := it.url,
            outcomes := it.quick },
     (scrape_one env it).2.take (env.cutoff it.url))
  else scrape_one env it

/-- Embedding of `scrape_mcp_site` (lines 156-408).  A failed listing
navigation returns the empty result list (lines 184-192); the
site-classification `raise ValueError("Unsupported site")` becomes
`Except.error` and happens after the successful listing navigation; task
results are joined, with `None` results (unexpected task exceptions)
dropped.  The event traces of the concurrent tasks are concatenated in
dispatch order (the claims only use per-market membership and emptiness,
which interleaving preserves). -/
def scrape_mcp_site (env : Env) (url : String) (max_items : Nat) :
    Except String (List ScrapeResult) × List Event :=
  if env.listingNavOk = false then (Except.ok [], [])
  else
    match siteOf url with
    | none => (Except.error "Unsupported site", [Event.navListing])
    | some site =>
      let pairs := (discoverItems env url site max_items).map (timed env)
      (Except.ok (pairs.filterMap Prod.fst),
       Event.navListing :: pairs.flatMap Prod.snd)

/-! ### Predicates used by the invariants, and concrete environments -/

/-- Every label in the map is "Yes" or "No". -/
def keysYN (m : OutcomeMap) : Prop := ∀ p ∈ m, p.1 = "Yes" ∨ p.1 = "No"

/-- The map's labels are pairwise distinct (true of every map the engine
builds; Python dicts have it by construction). -/
def NodupKeys (m : OutcomeMap) : Prop := (m.map Prod.fst).Nodup

def pageNone : DetailPage := ⟨none, none, none⟩

/-- A baseline oracle: listing loads, no cards, every detail navigation
fails, no watchdog, no task exception. -/
def envA : Env :=
  { listingNavOk := true, anchors := [], navOkAt := fun _ _ => false,
    detail := fun _ => pageNone, watchdogFires := fun _ => false,
    taskFails := fun _ => false, cutoff := fun _ => 0 }

/-- One card whose text already carries both quick outcomes. -/
def envB : Env := { envA with anchors := [⟨some "/event/a", "Yes 30c No 70c"⟩] }

def itB : Item :=
  ⟨"polymarket", "https://polymarket.com/event/a", "Yes 30c No 70c",
   [("Yes", 3 / 10), ("No", 7 / 10)]⟩

/-- Watchdog fires on every market. -/
def envW : Env := { envA with watchdogFires := fun _ => true }

def envNavFail : Env := { envA with listingNavOk := false }

/-- An item with only a partial quick map (detail path). -/
def itC : Item := ⟨"polymarket", "https://polymarket.com/event/c", "c", [("Yes", 1 / 2)]⟩

/-! ## Lemmas about the map operations -/

theorem mem_setKey {m : OutcomeMap} {k : String} {v : ℚ} {p : String × ℚ}
    (h : p ∈ setKey m k v) : p = (k, v) ∨ p ∈ m := by
  induction m with
  | nil => simpa [setKey] using h
  | cons q ps ih =>
    unfold setKey at h
    split at h
    · rcases List.mem_cons.mp h with h1 | h1
      · exact Or.inl h1
      · exact Or.inr (List.mem_cons_of_mem _ h1)
    · rcases List.mem_cons.mp h with h1 | h1
      · exact Or.inr (h1 ▸ List.mem_cons_self _ _)
      · rcases ih h1 with h2 | h2
        · exact Or.inl h2
        · exact Or.inr (List.mem_cons_of_mem _ h2)

theorem getKey_cons (k1 : String) (v1 : ℚ) (t : OutcomeMap) (k : String) :
    getKey ((k1, v1) :: t) k = if k1 = k then some v1 else getKey t k := by
  unfold getKey
  rcases eq_or_ne k1 k with h | h
  · simp [List.find?, beq_iff_eq, h]
  · have hb : (k1 == k) = false := beq_eq_false_iff_ne.mpr h
    simp [List.find?, hb, h]

theorem getKey_setKey_self (m : OutcomeMap) (k : String) (v : ℚ) :
    getKey (setKey m k v) k = some v := by
  induction m with
  | nil => simp [setKey, getKey_cons]
  | cons q ps ih =>
    unfold setKey
    split
    · simp [getKey_cons]
    · rename_i hne
      rw [show (q.1, q.2) :: setKey ps k v = q :: setKey ps k v from rfl] at *
      rcases q with ⟨q1, q2⟩
      rw [getKey_cons, if_neg (by simpa using hne)]
      exact ih

theorem getKey_setKey_ne (m : OutcomeMap) (k k' : String) (v : ℚ) (h : k' ≠ k) :
    getKey (setKey m k v) k' = getKey m k' := by
  induction m with
  | nil =>
    rw [show setKey [] k v = [(k, v)] from rfl, getKey_cons,
      if_neg (fun hh => h hh.symm)]
  | cons q ps ih =>
    rcases q with ⟨q1, q2⟩
    unfold setKey
    split
    · rename_i he
      simp only at he
      rw [getKey_cons, getKey_cons, if_neg (fun hh : k = k' => h hh.symm),
        if_neg (fun hh : q1 = k' => h (he ▸ hh).symm)]
    · rw [getKey_cons, getKey_cons]
      split
      · rfl
      · exact ih

theorem getKey_some_mem {m : OutcomeMap} {k : String} {v : ℚ}
    (h : getKey m k = some v) : (k, v) ∈ m := by
  induction m with
  | nil => simp [getKey, List.find?] at h
  | cons q ps ih =>
    rcases q with ⟨q1, q2⟩
    rw [getKey_cons] at h
    split at h
    · rename_i he
      cases h
      exact he ▸ List.mem_cons_self _ _
    · exact List.mem_cons_of_mem _ (ih h)

theorem getKey_eq_none_of_not_mem {m : OutcomeMap} {k : String}
    (h : k ∉ m.map Prod.fst) : getKey m k = none := by
  induction m with
  | nil => rfl
  | cons q ps ih =>
    rcases q with ⟨q1, q2⟩
    simp only [List.map_cons, List.mem_cons, not_or] at h
    rw [getKey_cons, if_neg (fun he => h.1 he.symm)]
    exact ih h.2

theorem updateMap_nil (m : OutcomeMap) : updateMap m [] = m := rfl

theorem updateMap_cons (m : OutcomeMap) (k : String) (v : ℚ) (n : OutcomeMap) :
    updateMap m ((k, v) :: n) = updateMap (setKey m k v) n := rfl

theorem getKey_updateMap_of_not_mem {n : OutcomeMap} {k : String}
    (h : k ∉ n.map Prod.fst) : ∀ m, getKey (updateMap m n) k = getKey m k := by
  induction n with
  | nil => intro m; rfl
  | cons q n' ih =>
    intro m
    rcases q with ⟨q1, q2⟩
    simp only [List.map_cons, List.mem_cons, not_or] at h
    rw [updateMap_cons, ih h.2, getKey_setKey_ne _ _ _ _ h.1]

/-- `dict.update` semantics at the lookup level: the overlay wins on
labels it holds, the base is consulted otherwise. -/
theorem getKey_updateMap {n : OutcomeMap} (hn : NodupKeys n) (k : String) :
    ∀ m, getKey (updateMap m n) k =
      match getKey n k with
      | some v => some v
      | none => getKey m k := by
  induction n with
  | nil => intro m; rfl
  | cons q n' ih =>
    intro m
    rcases q with ⟨q1, q2⟩
    rcases hn' : NodupKeys n' with _
    have hnd : q1 ∉ n'.map Prod.fst ∧ NodupKeys n' := by
      simpa [NodupKeys] using hn
    rw [updateMap_cons, getKey_cons]
    rcases eq_or_ne q1 k with he | he
    · subst he
      rw [if_pos rfl, getKey_updateMap_of_not_mem hnd.1, getKey_setKey_self]
    · rw [if_neg he, ih hnd.2]
      rcases h2 : getKey n' k with _ | w
      · simp only
        rw [getKey_setKey_ne _ _ _ _ (fun hh => he hh.symm)]
      · simp only

theorem NodupKeys_setKey {m : OutcomeMap} (h : NodupKeys m) (k : String) (v : ℚ) :
    NodupKeys (setKey m k v) := by
  induction m with
  | nil => simp [setKey, NodupKeys]
  | cons q ps ih =>
    rcases q with ⟨q1, q2⟩
    have h' : q1 ∉ ps.map Prod.fst ∧ (ps.map Prod.fst).Nodup := by
      simpa only [NodupKeys, List.map_cons, List.nodup_cons] using h
    unfold setKey
    split
    · rename_i he
      simp only at he
      subst he
      show (List.map Prod.fst ((q1, v) :: ps)).Nodup
      rw [List.map_cons]
      exact List.nodup_cons.mpr h'
    · rename_i hne
      simp only at hne
      have hmem : q1 ∉ (setKey ps k v).map Prod.fst := by
        intro hq
        rcases List.mem_map.mp hq with ⟨p, hp, hfst⟩
        rcases mem_setKey hp with h1 | h1
        · exact hne (by rw [← hfst, h1])
        · exact h'.1 (hfst ▸ List.mem_map_of_mem Prod.fst h1)
      show (List.map Prod.fst ((q1, q2) :: setKey ps k v)).Nodup
      rw [List.map_cons]
      exact List.nodup_cons.mpr ⟨hmem, ih h'.2⟩

theorem NodupKeys_updateMap {m : OutcomeMap} (h : NodupKeys m) :
    ∀ n, NodupKeys (updateMap m n) := by
  intro n
  induction n generalizing m with
  | nil => exact h
  | cons q n' ih =>
    rcases q with ⟨q1, q2⟩
    rw [updateMap_cons]
    exact ih (NodupKeys_setKey h q1 q2)

theorem NodupKeys_nil : NodupKeys [] := List.nodup_nil

theorem keysYN_nil : keysYN [] := by intro p hp; cases hp

theorem keysYN_setKey {m : OutcomeMap} (h : keysYN m) {k : String}
    (hk : k = "Yes" ∨ k = "No") (v : ℚ) : keysYN (setKey m k v) := by
  intro p hp
  rcases mem_setKey hp with h1 | h1
  · rw [h1]; exact hk
  · exact h p h1

theorem keysYN_updateMap {m n : OutcomeMap} (hm : keysYN m) (hn : keysYN n) :
    keysYN (updateMap m n) := by
  induction n generalizing m with
  | nil => exact hm
  | cons q n' ih =>
    rcases q with ⟨q1, q2⟩
    rw [updateMap_cons]
    exact ih (keysYN_setKey hm (hn (q1, q2) (List.mem_cons_self _ _)) q2)
      (fun p hp => hn p (List.mem_cons_of_mem _ hp))

/-! ## Invariants of the parser, the extractor and discovery -/

theorem keysYN_setIf {m : OutcomeMap} (h : keysYN m) {k : String}
    (hk : k = "Yes" ∨ k = "No") (tok : Option (List Char)) : keysYN (setIf m k tok) := by
  unfold setIf
  split
  · split
    · exact keysYN_setKey h hk _
    · exact h
  · exact h

theorem keysYN_iteSet {c : Prop} [Decidable c] {m : OutcomeMap} (h : keysYN m)
    {k : String} (hk : k = "Yes" ∨ k = "No") (tok : Option (List Char)) :
    keysYN (if c then m else setIf m k tok) := by
  split
  · exact h
  · exact keysYN_setIf h hk tok

theorem keysYN_parse (text : String) : keysYN (parse_yes_no_from_text_block text) := by
  unfold parse_yes_no_from_text_block
  split
  · exact keysYN_nil
  · exact keysYN_iteSet
      (keysYN_iteSet
        (keysYN_setIf (keysYN_setIf keysYN_nil (Or.inl rfl) _) (Or.inr rfl) _)
        (Or.inl rfl) _)
      (Or.inr rfl) _

theorem NodupKeys_setIf {m : OutcomeMap} (h : NodupKeys m) (k : String)
    (tok : Option (List Char)) : NodupKeys (setIf m k tok) := by
  unfold setIf
  split
  · split
    · exact NodupKeys_setKey h _ _
    · exact h
  · exact h

theorem NodupKeys_iteSet {c : Prop} [Decidable c] {m : OutcomeMap} (h : NodupKeys m)
    (k : String) (tok : Option (List Char)) :
    NodupKeys (if c then m else setIf m k tok) := by
  split
  · exact h
  · exact NodupKeys_setIf h k tok

theorem NodupKeys_parse (text : String) : NodupKeys (parse_yes_no_from_text_block text) := by
  unfold parse_yes_no_from_text_block
  split
  · exact NodupKeys_nil
  · exact NodupKeys_iteSet
      (NodupKeys_iteSet (NodupKeys_setIf (NodupKeys_setIf NodupKeys_nil _ _) _ _) _ _) _ _

theorem keysYN_extractBlocksFold (bs : List (Option String)) :
    keysYN (extractBlocksFold bs) := by
  have main : ∀ (l : List (Option String)) (acc : OutcomeMap), keysYN acc →
      keysYN (l.foldl
        (fun acc ob =>
          match ob with
          | some bt => updateMap acc (parse_yes_no_from_text_block bt)
          | none => acc) acc) := by
    intro l
    induction l with
    | nil => intro acc h; exact h
    | cons b l ih =>
      intro acc h
      rw [List.foldl_cons]
      cases b with
      | none => exact ih acc h
      | some bt => exact ih _ (keysYN_updateMap h (keysYN_parse bt))
  exact main bs [] keysYN_nil

theorem NodupKeys_extractBlocksFold (bs : List (Option String)) :
    NodupKeys (extractBlocksFold bs) := by
  have main : ∀ (l : List (Option String)) (acc : OutcomeMap), NodupKeys acc →
      NodupKeys (l.foldl
        (fun acc ob =>
          match ob with
          | some bt => updateMap acc (parse_yes_no_from_text_block bt)
          | none => acc) acc) := by
    intro l
    induction l with
    | nil => intro acc h; exact h
    | cons b l ih =>
      intro acc h
      rw [List.foldl_cons]
      cases b with
      | none => exact ih acc h
      | some bt => exact ih _ (NodupKeys_updateMap h _)
  exact main bs [] NodupKeys_nil

theorem keysYN_extractStep3 (pg : DetailPage) : keysYN (extractStep3 pg) := by
  unfold extractStep3
  split
  · exact keysYN_parse _
  · exact keysYN_nil

theorem keysYN_extractStep2 (pg : DetailPage) : keysYN (extractStep2 pg) := by
  unfold extractStep2
  split
  · dsimp only
    split
    · exact keysYN_extractBlocksFold _
    · exact keysYN_extractStep3 pg
  · exact keysYN_extractStep3 pg

theorem keysYN_extract (pg : DetailPage) : keysYN (extract_yes_no_on_detail pg) := by
  unfold extract_yes_no_on_detail
  split
  · dsimp only
    split
    · exact keysYN_parse _
    · exact keysYN_extractStep2 pg
  · exact keysYN_extractStep2 pg

theorem NodupKeys_extractStep3 (pg : DetailPage) : NodupKeys (extractStep3 pg) := by
  unfold extractStep3
  split
  · exact NodupKeys_parse _
  · exact NodupKeys_nil

theorem NodupKeys_extractStep2 (pg : DetailPage) : NodupKeys (extractStep2 pg) := by
  unfold extractStep2
  split
  · dsimp only
    split
    · exact NodupKeys_extractBlocksFold _
    · exact NodupKeys_extractStep3 pg
  · exact NodupKeys_extractStep3 pg

theorem NodupKeys_extract (pg : DetailPage) : NodupKeys (extract_yes_no_on_detail pg) := by
  unfold extract_yes_no_on_detail
  split
  · dsimp only
    split
    · exact NodupKeys_parse _
    · exact NodupKeys_extractStep2 pg
  · exact NodupKeys_extractStep2 pg

theorem keysYN_mkItem (site : String) (a : Card) (abs_href : String) :
    keysYN (mkItem site a abs_href).quick := keysYN_parse a.text

theorem keysYN_discoverLoop (site : String) (m : Nat) :
    ∀ (cards : List Card) (seen : List String) (acc : List Item),
      (∀ it ∈ acc, keysYN it.quick) →
      ∀ it ∈ discoverLoop site m cards seen acc, keysYN it.quick := by
  intro cards
  induction cards with
  | nil =>
    intro seen acc hacc it hit
    simp only [discoverLoop] at hit
    exact hacc it (List.mem_reverse.mp hit)
  | cons a rest ih =>
    intro seen acc hacc it hit
    simp only [discoverLoop] at hit
    split at hit
    · exact ih seen acc hacc it hit
    · split at hit
      · rcases List.mem_cons.mp (List.mem_reverse.mp hit) with h1 | h1
        · rw [h1]; exact keysYN_mkItem site a _
        · exact hacc it h1
      · refine ih _ _ ?_ it hit
        intro j hj
        rcases List.mem_cons.mp hj with h1 | h1
        · rw [h1]; exact keysYN_mkItem site a _
        · exact hacc j h1

theorem keysYN_discoverItems (env : Env) (url site : String) (m : Nat) :
    ∀ it ∈ discoverItems env url site m, keysYN it.quick := by
  intro it hit
  unfold discoverItems at hit
  dsimp only at hit
  split at hit
  · rcases List.mem_singleton.mp hit with h
    rw [h]
    exact keysYN_nil
  · exact keysYN_discoverLoop site m env.anchors [] []
      (fun j hj => absurd hj (List.not_mem_nil j)) it hit

/-- `hasKey` unpacked. -/
theorem hasKey_iff {m : OutcomeMap} {k : String} :
    hasKey m k = true ↔ ∃ v, getKey m k = some v := by
  unfold hasKey
  cases h : getKey m k with
  | none => simp
  | some v => simp

theorem getKey_eq_none_of_keysYN {m : OutcomeMap} (h : keysYN m) {k : String}
    (h1 : k ≠ "Yes") (h2 : k ≠ "No") : getKey m k = none := by
  cases hg : getKey m k with
  | none => rfl
  | some v =>
    rcases h _ (getKey_some_mem hg) with he | he
    · exact absurd he h1
    · exact absurd he h2

/- Batteries marks rational arithmetic `@[irreducible]`; the concrete-input
theorems below evaluate it, so restore reducibility locally. -/
attribute [local semireducible] Rat.mul Rat.inv Rat.add Rat.sub

/-! ## Claim C2 -/

/-- C2: the text-block parser applied to the exact input
`"Yes 30¢  No 72¢"` returns the map `{"Yes": 0.30, "No": 0.72}`
(confirmed; the map is built with "Yes" inserted first, as in the source). -/
theorem c2_parse_yes_no_example :
    parse_yes_no_from_text_block "Yes 30¢  No 72¢" =
      [("Yes", (30 : ℚ) / 100), ("No", (72 : ℚ) / 100)] := by decide

/-! ## Claim C1 -/

/-- C1: the claimed invariant "every value of every produced OutcomeMap lies
in [0.0, 1.0]" is broken by the code: the card text `"Yes 200¢"` makes the
quick-outcome parser emit the value 2.0, although the docstring of
`parse_yes_no_from_text_block` itself promises "floats in [0,1]".  This
theorem evaluates the code at the failing input. -/
theorem c1_range_violation :
    parse_yes_no_from_text_block "Yes 200¢" = [("Yes", (2 : ℚ))] ∧
      ¬((2 : ℚ) ≤ 1) := by decide

/-! ## Claim C3: lemmas about `parse_price_token_to_float` -/

theorem dropWhile_eq_self_of_head {p : Char → Bool} :
    ∀ {s : List Char}, (∀ c ∈ s, p c = false) → s.dropWhile p = s
  | [], _ => rfl
  | c :: cs, h => by
    simp [List.dropWhile_cons, h c (List.mem_cons_self c cs)]

theorem stripWs_eq_self {s : List Char} (h : ∀ c ∈ s, isWs c = false) :
    stripWs s = s := by
  unfold stripWs
  rw [dropWhile_eq_self_of_head h,
    dropWhile_eq_self_of_head (fun c hc => h c (List.mem_reverse.mp hc)),
    List.reverse_reverse]

theorem isDig_not_ws {c : Char} (h : isDig c = true) : isWs c = false := by
  simp only [isDig, Bool.and_eq_true, decide_eq_true_eq] at h
  simp only [isWs, Bool.or_eq_false_iff, decide_eq_false_iff_not]
  omega

theorem isDig_ne {c : Char} (h : isDig c = true) {d : Char} (hd : isDig d = false) :
    c ≠ d := by
  intro he
  rw [he, hd] at h
  exact absurd h Bool.false_ne_true

theorem pyFloat_digits {ds : List Char} (hne : ds ≠ [])
    (hd : ∀ c ∈ ds, isDig c = true) : pyFloat ds = some (natOfDigs ds) := by
  have hstrip : stripWs ds = ds := stripWs_eq_self (fun c hc => isDig_not_ws (hd c hc))
  unfold pyFloat
  dsimp only
  rw [hstrip, if_pos]
  · rw [List.takeWhile_eq_self_iff.mpr (fun c hc => hd c hc),
      List.dropWhile_eq_nil_iff.mpr (fun c hc => hd c hc)]
    simp [natOfDigs]
  · refine ⟨hne, fun c hc => Or.inl (hd c hc), ?_, ?_⟩
    · rw [List.filter_eq_nil_iff.mpr ?_]
      · simp
      · intro c hc hdot
        exact isDig_ne (hd c hc) (show isDig '.' = false by decide)
          (by simpa [beq_iff_eq] using hdot)
    · rcases ds with _ | ⟨c, cs⟩
      · exact absurd rfl hne
      · exact ⟨c, List.mem_cons_self c cs, hd c (List.mem_cons_self c cs)⟩

theorem parse_cents_suffix {ds : List Char} (hne : ds ≠ [])
    (hd : ∀ c ∈ ds, isDig c = true) {suf : Char} (hsuf : suf = 'c' ∨ suf = '¢') :
    parse_price_token_to_float (ds ++ [suf]) = some ((natOfDigs ds : ℚ) / 100) := by
  have hnw : ∀ c ∈ ds ++ [suf], isWs c = false := by
    intro c hc
    rcases List.mem_append.mp hc with h | h
    · exact isDig_not_ws (hd c h)
    · rcases List.mem_singleton.mp h with rfl
      rcases hsuf with rfl | rfl <;> decide
  unfold parse_price_token_to_float
  rw [if_neg (by simp)]
  dsimp only
  rw [stripWs_eq_self hnw]
  rw [if_pos (by rcases hsuf with rfl | rfl <;>
    simp [lastIs, List.getLast?_concat])]
  rw [List.filter_append, List.filter_eq_self.mpr
    (fun a ha => by rw [hd a ha]; rfl)]
  rw [show (List.filter (fun c => isDig c || c == '.') [suf]) = [] by
    rcases hsuf with rfl | rfl <;> decide]
  rw [List.append_nil, pyFloat_digits hne hd]
  rfl

theorem parse_percent_suffix {ds : List Char} (hne : ds ≠ [])
    (hd : ∀ c ∈ ds, isDig c = true) :
    parse_price_token_to_float (ds ++ ['%']) = some ((natOfDigs ds : ℚ) / 100) := by
  have hnw : ∀ c ∈ ds ++ ['%'], isWs c = false := by
    intro c hc
    rcases List.mem_append.mp hc with h | h
    · exact isDig_not_ws (hd c h)
    · rcases List.mem_singleton.mp h with rfl
      decide
  unfold parse_price_token_to_float
  rw [if_neg (by simp)]
  dsimp only
  rw [stripWs_eq_self hnw]
  rw [if_neg (by simp [lastIs, List.getLast?_concat])]
  rw [if_pos (by simp [lastIs, List.getLast?_concat])]
  rw [List.dropLast_concat, pyFloat_digits hne hd]
  rfl

theorem parse_plain_numeric {t : List Char} {v : ℚ}
    (hchars : ∀ c ∈ t, isDig c = true ∨ c = '.')
    (hpf : pyFloat t = some v) :
    parse_price_token_to_float t = some (if v ≤ 1 then v else v / 100) ∧
    parse_price_token_to_float ('$' :: t) =
      some (if v ≤ 1 then v else v / 100) := by
  have hne : t ≠ [] := by
    intro h
    rw [h, show pyFloat [] = none from rfl] at hpf
    cases hpf
  have hnw : ∀ c ∈ t, isWs c = false := by
    intro c hc
    rcases hchars c hc with h | h
    · exact isDig_not_ws h
    · rw [h]; decide
  rcases List.eq_nil_or_concat t with rfl | ⟨t0, c, ht⟩
  · exact absurd rfl hne
  rw [List.concat_eq_append] at ht
  subst ht
  have hcmem : c ∈ t0 ++ [c] := List.mem_append.mpr (Or.inr (List.mem_singleton.mpr rfl))
  have hcne : c ≠ 'c' ∧ c ≠ '¢' ∧ c ≠ '%' ∧ c ≠ '$' := by
    rcases hchars c hcmem with h | h
    · exact ⟨isDig_ne h (by decide), isDig_ne h (by decide),
        isDig_ne h (by decide), isDig_ne h (by decide)⟩
    · rw [h]; refine ⟨by decide, by decide, by decide, by decide⟩
  have hfilter : List.filter (fun c => !(c == '$')) (t0 ++ [c]) = t0 ++ [c] :=
    List.filter_eq_self.mpr (fun a ha => by
      rcases hchars a ha with h | h
      · simp [beq_eq_false_iff_ne, isDig_ne h (show isDig '$' = false by decide)]
      · rw [h]; decide)
  constructor
  · unfold parse_price_token_to_float
    rw [if_neg (by simp)]
    dsimp only
    rw [stripWs_eq_self hnw]
    rw [if_neg (by simp [lastIs, List.getLast?_concat, hcne.1, hcne.2.1])]
    rw [if_neg (by simp [lastIs, List.getLast?_concat, hcne.2.2.1])]
    rw [hfilter, hpf]
    rfl
  · have hnw' : ∀ d ∈ '$' :: (t0 ++ [c]), isWs d = false := by
      intro d hd
      rcases List.mem_cons.mp hd with rfl | hd
      · decide
      · exact hnw d hd
    have hlast : ('$' :: (t0 ++ [c])).getLast? = some c := by
      rw [← List.cons_append, List.getLast?_concat]
    unfold parse_price_token_to_float
    rw [if_neg (by simp)]
    dsimp only
    rw [stripWs_eq_self hnw']
    rw [if_neg (by simp [lastIs, hlast, hcne.1, hcne.2.1])]
    rw [if_neg (by simp [lastIs, hlast, hcne.2.2.1])]
    rw [List.filter_cons_of_neg (by decide), hfilter, hpf]
    rfl

/-- C3: the single-token price parser grammar (confirmed): a cents-suffixed
token of digits is value/100, a percent-suffixed token is value/100, a plain
or dollar-marked numeric token is the value itself when ≤ 1.0 and value/100
otherwise; in particular "30c", "30%", "0.30" and "30" all parse to 0.30. -/
theorem c3_price_token_grammar :
    (∀ ds : List Char, ds ≠ [] → (∀ c ∈ ds, isDig c = true) →
      parse_price_token_to_float (ds ++ ['c']) = some ((natOfDigs ds : ℚ) / 100) ∧
      parse_price_token_to_float (ds ++ ['¢']) = some ((natOfDigs ds : ℚ) / 100) ∧
      parse_price_token_to_float (ds ++ ['%']) = some ((natOfDigs ds : ℚ) / 100)) ∧
    (∀ (t : List Char) (v : ℚ), (∀ c ∈ t, isDig c = true ∨ c = '.') →
      pyFloat t = some v →
      parse_price_token_to_float t = some (if v ≤ 1 then v else v / 100) ∧
      parse_price_token_to_float ('$' :: t) =
        some (if v ≤ 1 then v else v / 100)) ∧
    parse_price_token_to_float "30c".data = some ((30 : ℚ) / 100) ∧
    parse_price_token_to_float "30%".data = some ((30 : ℚ) / 100) ∧
    parse_price_token_to_float "0.30".data = some ((30 : ℚ) / 100) ∧
    parse_price_token_to_float "30".data = some ((30 : ℚ) / 100) := by
  refine ⟨?_, ?_, by decide, by decide, by decide, by decide⟩
  · intro ds hne hd
    exact ⟨parse_cents_suffix hne hd (Or.inl rfl),
      parse_cents_suffix hne hd (Or.inr rfl), parse_percent_suffix hne hd⟩
  · intro t v hchars hpf
    exact parse_plain_numeric hchars hpf

/-- Witness for C3 at concrete inputs: "72¢" and "0.25". -/
theorem c3_witness :
    parse_price_token_to_float (['7', '2'] ++ ['¢']) =
      some ((natOfDigs ['7', '2'] : ℚ) / 100) ∧
    parse_price_token_to_float ['0', '.', '2', '5'] =
      some (if (1 / 4 : ℚ) ≤ 1 then (1 / 4 : ℚ) else (1 / 4 : ℚ) / 100) :=
  ⟨(c3_price_token_grammar.1 ['7', '2'] (by decide) (by decide)).2.1,
   (c3_price_token_grammar.2.1 ['0', '.', '2', '5'] (1 / 4) (by decide) (by decide)).1⟩

/-! ## Claim C9 -/

/-- C9: when navigation to the listing URL itself fails, the engine returns
an empty result list and raises nothing (confirmed; lines 184-192 return
`results` — still empty — after the failed `goto`). -/
theorem c9_listing_nav_failure (env : Env) (url : String) (m : Nat)
    (h : env.listingNavOk = false) :
    (scrape_mcp_site env url m).1 = Except.ok [] := by
  unfold scrape_mcp_site
  rw [h]
  simp

theorem c9_witness :
    (scrape_mcp_site envNavFail "https://polymarket.com/markets" 10).1 =
      Except.ok [] :=
  c9_listing_nav_failure envNavFail "https://polymarket.com/markets" 10 rfl

/-! ## Claim C6 -/

/-- C6: the only error a full run can produce is "Unsupported site", and it
is produced exactly when the URL matches no known site variant while the
listing navigation succeeded; the event trace of an erroring run is exactly
the successful listing navigation, i.e. classification happens only after
the listing page has been navigated (confirmed). -/
theorem c6_unsupported_site (env : Env) (url : String) (m : Nat) :
    ((scrape_mcp_site env url m).1 = Except.error "Unsupported site" ↔
      (env.listingNavOk = true ∧ siteOf url = none)) ∧
    (∀ e, (scrape_mcp_site env url m).1 = Except.error e →
      e = "Unsupported site" ∧
        (scrape_mcp_site env url m).2 = [Event.navListing]) := by
  unfold scrape_mcp_site
  cases hnav : env.listingNavOk with
  | false => simp
  | true =>
    cases hsite : siteOf url with
    | none => simp
    | some site => simp

theorem c6_witness :
    (scrape_mcp_site envA "https://example.com/markets" 10).1 =
      Except.error "Unsupported site" :=
  (c6_unsupported_site envA "https://example.com/markets" 10).1.mpr
    ⟨rfl, by decide⟩

/-! ## Claim C7 -/

/-- C7: when the listing navigation succeeded but the card loop produced no
references, discovery yields exactly one synthetic reference: the original
URL, the slug-derived title, and empty quick outcomes; and discovery never
yields an empty reference set (confirmed; lines 267-269). -/
theorem c7_synthetic_reference (env : Env) (url site : String) (m : Nat)
    (hnav : env.listingNavOk = true)
    (hsite : siteOf url = some site)
    (hempty : discoverLoop site m env.anchors [] [] = []) :
    discoverItems env url site m =
      [{ site := site, url := url, title := slug_to_title url, quick := [] }] ∧
    ∀ (env2 : Env) (url2 : String) (m2 : Nat),
      discoverItems env2 url2 site m2 ≠ [] := by
  constructor
  · unfold discoverItems
    rw [hempty]
    simp
  · intro env2 url2 m2
    unfold discoverItems
    dsimp only
    split
    · simp
    · assumption

theorem c7_witness :
    discoverItems envA "https://polymarket.com/event/will-it-rain" "polymarket" 10 =
      [{ site := "polymarket", url := "https://polymarket.com/event/will-it-rain",
         title := slug_to_title "https://polymarket.com/event/will-it-rain",
         quick := [] }] :=
  (c7_synthetic_reference envA "https://polymarket.com/event/will-it-rain"
    "polymarket" 10 rfl (by decide) rfl).1

/-! ## Claim C4 -/

/-- C4: a reference whose quick outcomes already contain both expected
labels is returned with exactly those outcomes (as a mapping) and zero
detail-page events: no page is opened, no detail navigation happens
(confirmed; the short-circuit of lines 281-288 runs before
`browser.new_page()`, and a watchdog timeout on such a reference also
yields the quick outcomes with an empty trace). -/
theorem c4_quick_complete_short_circuit (env : Env) (url site : String) (m : Nat)
    (it : Item) (hit : it ∈ discoverItems env url site m)
    (hy : hasKey it.quick "Yes" = true) (hn : hasKey it.quick "No" = true) :
    (∃ r, (timed env it).1 = some r ∧
      ∀ k, getKey r.outcomes k = getKey it.quick k) ∧
    (timed env it).2 = [] := by
  have hq := keysYN_discoverItems env url site m it hit
  have hsc : (hasKey it.quick "Yes" && hasKey it.quick "No") = true := by
    rw [hy, hn]; rfl
  obtain ⟨vy, hvy⟩ := hasKey_iff.mp hy
  obtain ⟨vn, hvn⟩ := hasKey_iff.mp hn
  have hso : scrape_one env it =
      (some { site := it.site
              product_name := if it.title = "" then "N/A" else it.title
              url := it.url
              outcomes := [("Yes", vy), ("No", vn)] }, []) := by
    unfold scrape_one
    rw [if_pos hsc, hvy, hvn]
    rfl
  have hpt : ∀ k, getKey ([("Yes", vy), ("No", vn)] : OutcomeMap) k =
      getKey it.quick k := by
    intro k
    by_cases hky : k = "Yes"
    · subst hky
      rw [getKey_cons, if_pos rfl, hvy]
    · by_cases hkn : k = "No"
      · subst hkn
        rw [getKey_cons, if_neg (by decide), getKey_cons, if_pos rfl, hvn]
      · rw [getKey_cons, if_neg (fun h => hky h.symm),
          getKey_cons, if_neg (fun h => hkn h.symm),
          getKey_eq_none_of_keysYN hq hky hkn]
        rfl
  unfold timed
  cases hw : env.watchdogFires it.url with
  | true =>
    rw [if_pos rfl]
    exact ⟨⟨_, rfl, fun k => rfl⟩, by rw [hso]; simp⟩
  | false =>
    rw [if_neg Bool.false_ne_true]
    rw [hso]
    exact ⟨⟨_, rfl, hpt⟩, rfl⟩

theorem c4_witness :
    (∃ r, (timed envB itB).1 = some r ∧
      ∀ k, getKey r.outcomes k = getKey itB.quick k) ∧
    (timed envB itB).2 = [] :=
  c4_quick_complete_short_circuit envB "https://polymarket.com/markets"
    "polymarket" 10 itB (by decide) (by decide) (by decide)

/-! ## Claim C5 -/

/-- C5: a reference whose watchdog deadline fires still yields a
ScrapeResult in the run's output (never an absence), and its outcomes are
exactly the quick outcomes captured for it before the timeout (confirmed;
lines 378-392). -/
theorem c5_watchdog_result (env : Env) (url site : String) (m : Nat) (it : Item)
    (hnav : env.listingNavOk = true)
    (hsite : siteOf url = some site)
    (hit : it ∈ discoverItems env url site m)
    (hw : env.watchdogFires it.url = true) :
    ∃ l r, (scrape_mcp_site env url m).1 = Except.ok l ∧ r ∈ l ∧
      r.url = it.url ∧ r.outcomes = it.quick := by
  have hrun : (scrape_mcp_site env url m).1 =
      Except.ok (((discoverItems env url site m).map (timed env)).filterMap
        Prod.fst) := by
    unfold scrape_mcp_site
    rw [if_neg (by simp [hnav]), hsite]
  refine ⟨_, { site := it.site, product_name := it.title, url := it.url,
               outcomes := it.quick }, hrun, ?_, rfl, rfl⟩
  apply List.mem_filterMap.mpr
  refine ⟨timed env it, List.mem_map_of_mem _ hit, ?_⟩
  unfold timed
  rw [if_pos hw]

theorem c5_witness :
    ∃ l r, (scrape_mcp_site envW "https://polymarket.com/event/a-b" 10).1 =
        Except.ok l ∧ r ∈ l ∧
      r.url = "https://polymarket.com/event/a-b" ∧ r.outcomes = [] :=
  c5_watchdog_result envW "https://polymarket.com/event/a-b" "polymarket" 10
    { site := "polymarket", url := "https://polymarket.com/event/a-b",
      title := slug_to_title "https://polymarket.com/event/a-b", quick := [] }
    rfl (by decide) (by decide) rfl

/-! ## Claim C8 -/

theorem navLoop_all_fail_gen (env : Env) (u : String) :
    ∀ (fuel attempt : Nat),
      (∀ a, attempt ≤ a → a < attempt + fuel → env.navOkAt u a = false) →
      (navLoop env u attempt fuel).2 = false := by
  intro fuel
  induction fuel with
  | zero => intro attempt h; rfl
  | succ n ih =>
    intro attempt h
    unfold navLoop
    rw [h attempt (le_refl _) (by omega)]
    rw [if_neg Bool.false_ne_true]
    exact ih (attempt + 1) (fun a ha hb => h a (by omega) (by omega))

theorem navLoop_all_fail {env : Env} {u : String}
    (h : ∀ a, a ≤ RETRIES → env.navOkAt u a = false) :
    (navLoop env u 0 (RETRIES + 1)).2 = false :=
  navLoop_all_fail_gen env u (RETRIES + 1) 0
    (fun a _ hb => h a (by omega))

/-- C8: on the detail path (quick outcomes incomplete, no watchdog, no task
exception) the emitted outcomes are the quick outcomes overlaid with the
detail-stage result, with the detail value winning on any label present in
both; and when every navigation retry fails, the outcomes are exactly the
quick outcomes (confirmed; lines 297-346). -/
theorem c8_detail_merge (env : Env) (it : Item)
    (hnotready : (hasKey it.quick "Yes" && hasKey it.quick "No") = false)
    (hw : env.watchdogFires it.url = false)
    (hf : env.taskFails it.url = false) :
    ∃ r, (timed env it).1 = some r ∧
      r.outcomes = updateMap it.quick
        (if (navLoop env it.url 0 (RETRIES + 1)).2 then
          extract_yes_no_on_detail (env.detail it.url) else []) ∧
      (∀ k, getKey r.outcomes k =
        match getKey (if (navLoop env it.url 0 (RETRIES + 1)).2 then
            extract_yes_no_on_detail (env.detail it.url) else []) k with
        | some v => some v
        | none => getKey it.quick k) ∧
      ((∀ a, a ≤ RETRIES → env.navOkAt it.url a = false) →
        r.outcomes = it.quick) := by
  unfold timed
  rw [if_neg (by rw [hw]; exact Bool.false_ne_true)]
  unfold scrape_one
  rw [if_neg (by rw [hnotready]; exact Bool.false_ne_true)]
  rw [if_neg (by rw [hf]; exact Bool.false_ne_true)]
  dsimp only
  refine ⟨_, rfl, rfl, ?_, ?_⟩
  · intro k
    refine getKey_updateMap ?_ k it.quick
    split
    · exact NodupKeys_extract _
    · exact NodupKeys_nil
  · intro hall
    rw [navLoop_all_fail hall]
    simp [updateMap_nil]

theorem c8_witness :
    ∃ r, (timed envA itC).1 = some r ∧
      r.outcomes = updateMap itC.quick
        (if (navLoop envA itC.url 0 (RETRIES + 1)).2 then
          extract_yes_no_on_detail (envA.detail itC.url) else []) ∧
      (∀ k, getKey r.outcomes k =
        match getKey (if (navLoop envA itC.url 0 (RETRIES + 1)).2 then
            extract_yes_no_on_detail (envA.detail itC.url) else []) k with
        | some v => some v
        | none => getKey itC.quick k) ∧
      ((∀ a, a ≤ RETRIES → envA.navOkAt itC.url a = false) →
        r.outcomes = itC.quick) :=
  c8_detail_merge envA itC (by decide) rfl rfl

/-! ## Claim C10 -/

/-- C10: the text-block parser only ever emits the labels "Yes" and "No",
and consequently every outcomes map of every ScrapeResult the engine emits
contains only those labels (confirmed). -/
theorem c10_only_yes_no_labels :
    (∀ text : String, keysYN (parse_yes_no_from_text_block text)) ∧
    (∀ (env : Env) (url : String) (m : Nat) (l : List ScrapeResult),
      (scrape_mcp_site env url m).1 = Except.ok l →
      ∀ r ∈ l, keysYN r.outcomes) := by
  refine ⟨keysYN_parse, ?_⟩
  intro env url m l hl r hr
  unfold scrape_mcp_site at hl
  by_cases hnav : env.listingNavOk = false
  · rw [if_pos hnav] at hl
    simp only [Except.ok.injEq] at hl
    subst hl
    exact absurd hr (List.not_mem_nil r)
  · rw [if_neg hnav] at hl
    cases hsite : siteOf url with
    | none =>
      rw [hsite] at hl
      simp at hl
    | some site =>
      rw [hsite] at hl
      simp only [Except.ok.injEq] at hl
      subst hl
      rcases List.mem_filterMap.mp hr with ⟨p, hp, hpr⟩
      rcases List.mem_map.mp hp with ⟨it, hitmem, rfl⟩
      have hq := keysYN_discoverItems env url site m it hitmem
      unfold timed at hpr
      split at hpr
      · cases hpr
        exact hq
      · unfold scrape_one at hpr
        split at hpr
        · cases hpr
          intro p hp2
          rcases List.mem_cons.mp hp2 with h1 | h1
          · rw [h1]; exact Or.inl rfl
          · rcases List.mem_cons.mp h1 with h2 | h2
            · rw [h2]; exact Or.inr rfl
            · exact absurd h2 (List.not_mem_nil p)
        · split at hpr
          · cases hpr
          · cases hpr
            apply keysYN_updateMap hq
            split
            · exact keysYN_extract _
            · exact keysYN_nil

theorem c10_witness :
    keysYN ({ site := "polymarket", product_name := "Yes 30c No 70c",
              url := "https://polymarket.com/event/a",
              outcomes := [("Yes", 3 / 10), ("No", 7 / 10)] } : ScrapeResult).outcomes :=
  c10_only_yes_no_labels.2 envB "https://polymarket.com/markets" 10
    [{ site := "polymarket", product_name := "Yes 30c No 70c",
       url := "https://polymarket.com/event/a",
       outcomes := [("Yes", 3 / 10), ("No", 7 / 10)] }]
    (by rfl) _ (by decide)

end CW
